import Mathlib

/-!
Verification of the codebase-to-text conversion engine of the
Code_To_Text_Software backend.

The definitions below are a shallow embedding of
src/projects/conversion_utils.py: the CodebaseConverter class
(its static configuration tables, the directory walker
_process_directory, the per-file dispatcher _process_file, the
converter _convert_file_to_text, the content sniffer
_is_binary_file, the collision-resolving output naming, and the
summary writer), together with the module-level ZIP packager
create_conversion_zip.

Modelling conventions:
  - bytes are Nat values below 256, file contents are byte lists;
  - the filesystem is explicit: a source tree is an inductive tree of
    files and directories, the output tree is an accumulating list of
    written files plus a list of created directories;
  - Python exceptions are modelled as explicit flags on source files
    and directories (stat failure, read failure, listing failure) and
    as an Option String exception channel in the walker, matching
    exactly which try/except block of the source catches them;
  - the provenance header and the placeholder body are abstracted into
    an OutContent tag carrying the fields that vary (encoding used,
    decoded text, reason string, final statistics).
-/

/-- EXCLUDED_DIRS table of CodebaseConverter: directory base names that the
walker skips entirely. -/
def EXCLUDED_DIRS : List String :=
  [".git", ".hg", ".svn", ".bzr",
   "__pycache__", ".pytest_cache", ".tox",
   "node_modules", ".npm", "dist", "build",
   ".vscode", ".idea", ".vs",
   "vendor", "packages",
   ".DS_Store", "Thumbs.db",
   "venv", "env", ".env",
   "target", "bin", "obj",
   ".gradle", ".m2",
   "coverage", ".nyc_output"]

/-- EXCLUDED_EXTENSIONS table of CodebaseConverter: lowercased extensions
treated as binary without looking at the content. -/
def EXCLUDED_EXTENSIONS : List String :=
  [".exe", ".dll", ".so", ".dylib", ".a", ".lib", ".o", ".obj", ".bin",
   ".zip", ".tar", ".gz", ".bz2", ".xz", ".7z", ".rar", ".iso",
   ".jpg", ".jpeg", ".png", ".gif", ".bmp", ".svg", ".ico", ".webp", ".tiff",
   ".mp4", ".avi", ".mov", ".wmv", ".flv", ".webm", ".mkv", ".m4v",
   ".mp3", ".wav", ".flac", ".aac", ".ogg", ".wma", ".m4a",
   ".pdf", ".doc", ".docx", ".xls", ".xlsx", ".ppt", ".pptx",
   ".ttf", ".otf", ".woff", ".woff2", ".eot",
   ".db", ".sqlite", ".sqlite3", ".mdb",
   ".jar", ".war", ".ear", ".class", ".pyc", ".pyo", ".pyd",
   ".swf", ".fla", ".psd", ".ai", ".sketch"]

/-- Last index of a character in a character list, if any. -/
def lastIdxOf (c : Char) : List Char → Option Nat
  | [] => none
  | a :: rest =>
    match lastIdxOf c rest with
    | some i => some (i + 1)
    | none => if a = c then some 0 else none

/-- Embedding of Python pathlib suffix: the part of the name from the last
dot on, provided that dot is neither the first nor the last character. -/
def pySuffix (name : String) : String :=
  match lastIdxOf '.' name.data with
  | some i =>
    if 0 < i && i + 1 < name.data.length then String.mk (name.data.drop i) else ""
  | none => ""

/-- Embedding of Python pathlib stem: the name with pySuffix removed. -/
def pyStem (name : String) : String :=
  match lastIdxOf '.' name.data with
  | some i =>
    if 0 < i && i + 1 < name.data.length then String.mk (name.data.take i) else name
  | none => name

/-- Lowercasing applied to the suffix before the extension-table lookup.
The table holds only ASCII extensions, so the ASCII lowering of each
character is the behavior the lookup observes. -/
def strToLower (s : String) : String :=
  String.mk (s.data.map Char.toLower)

/-- Membership test of a byte in the text_chars table of _is_binary_file:
the bytes 7, 8, 9, 10, 12, 13, 27 together with the range 0x20 to 0xFF
minus 0x7F. -/
def isTextByte (b : Nat) : Bool :=
  b = 7 || b = 8 || b = 9 || b = 10 || b = 12 || b = 13 || b = 27 ||
    (0x20 ≤ b && b ≤ 0xFF && b != 0x7F)

/-- Content heuristic of _is_binary_file on the first chunk: an empty chunk
is not binary; a null byte means binary; otherwise binary when more than
30 percent of the bytes are outside text_chars.  Python compares
non_text_count / len(chunk) > 0.30 with float division; for every
denominator up to the chunk size 8192 the double rounding never crosses
the 3/10 boundary, so the exact rational comparison used here coincides
with the source comparison on all inputs the code can produce. -/
def sniffBinary (chunk : List Nat) : Bool :=
  if chunk.isEmpty then false
  else if chunk.contains 0 then true
  else
    let nonText := (chunk.filter (fun b => ! isTextByte b)).length
    3 * chunk.length < 10 * nonText

/-- Source file as the engine observes it.  The flags model the fallible
OS interactions of the source: statOk is os.stat succeeding, readOk is the
binary read of the first 8192 bytes in _is_binary_file succeeding,
readFullOk is the full text-mode read in _convert_file_to_text succeeding,
and errMsg is the str(e) text of the stat exception when statOk is false. -/
structure SrcFile where
  name : String
  size : Nat
  content : List Nat
  statOk : Bool
  readOk : Bool
  readFullOk : Bool
  errMsg : String
deriving Repr, DecidableEq

/-- Embedding of _is_binary_file: a failed read means binary, otherwise the
content heuristic on the first 8192 bytes decides. -/
def is_binary_file (f : SrcFile) : Bool :=
  if ! f.readOk then true
  else sniffBinary (f.content.take 8192)

/-- Continuation byte test for strict UTF-8. -/
def isCont (b : Nat) : Bool := 0x80 ≤ b && b ≤ 0xBF

/-- State of the strict UTF-8 decoding automaton: decoded code points in
reverse order, accumulated bits of the current sequence, number of
continuation bytes still expected, and the admissible range of the next
byte. -/
structure Utf8State where
  outRev : List Nat
  acc : Nat
  need : Nat
  lo : Nat
  hi : Nat
deriving Repr, DecidableEq

/-- Single step of the strict UTF-8 decoder, consuming one byte. -/
def utf8Step (s : Utf8State) (b : Nat) : Option Utf8State :=
  if s.need > 0 then
    if s.lo ≤ b && b ≤ s.hi then
      let acc := s.acc * 0x40 + (b - 0x80)
      if s.need = 1 then some ⟨acc :: s.outRev, 0, 0, 0, 0⟩
      else some ⟨s.outRev, acc, s.need - 1, 0x80, 0xBF⟩
    else none
  else
    if b ≤ 0x7F then some ⟨b :: s.outRev, 0, 0, 0, 0⟩
    else if 0xC2 ≤ b && b ≤ 0xDF then some ⟨s.outRev, b - 0xC0, 1, 0x80, 0xBF⟩
    else if b = 0xE0 then some ⟨s.outRev, 0, 2, 0xA0, 0xBF⟩
    else if 0xE1 ≤ b && b ≤ 0xEC then some ⟨s.outRev, b - 0xE0, 2, 0x80, 0xBF⟩
    else if b = 0xED then some ⟨s.outRev, 0xD, 2, 0x80, 0x9F⟩
    else if 0xEE ≤ b && b ≤ 0xEF then some ⟨s.outRev, b - 0xE0, 2, 0x80, 0xBF⟩
    else if b = 0xF0 then some ⟨s.outRev, 0, 3, 0x90, 0xBF⟩
    else if 0xF1 ≤ b && b ≤ 0xF3 then some ⟨s.outRev, b - 0xF0, 3, 0x80, 0xBF⟩
    else if b = 0xF4 then some ⟨s.outRev, 4, 3, 0x80, 0x8F⟩
    else none

/-- Strict UTF-8 decode of a byte list into code points, as performed by
the Python utf-8 codec in strict error mode: rejects stray continuation
bytes, overlong forms, surrogates, code points beyond 0x10FFFF, and
truncated sequences. -/
def utf8Decode (bs : List Nat) : Option (List Nat) :=
  match bs.foldl (fun acc b => acc.bind (fun s => utf8Step s b)) (some ⟨[], 0, 0, 0, 0⟩) with
  | some s => if s.need = 0 then some s.outRev.reverse else none
  | none => none

/-- BOM stripping of the utf-8-sig codec: remove a leading EF BB BF. -/
def stripBom (bs : List Nat) : List Nat :=
  match bs with
  | 0xEF :: 0xBB :: 0xBF :: r => r
  | _ => bs

/-- Single-byte table of the cp1252 codec: the 0x80 to 0x9F block maps to
specific code points with five undefined holes, every other byte maps to
itself. -/
def cp1252Byte (b : Nat) : Option Nat :=
  if b = 0x80 then some 0x20AC
  else if b = 0x82 then some 0x201A
  else if b = 0x83 then some 0x0192
  else if b = 0x84 then some 0x201E
  else if b = 0x85 then some 0x2026
  else if b = 0x86 then some 0x2020
  else if b = 0x87 then some 0x2021
  else if b = 0x88 then some 0x02C6
  else if b = 0x89 then some 0x2030
  else if b = 0x8A then some 0x0160
  else if b = 0x8B then some 0x2039
  else if b = 0x8C then some 0x0152
  else if b = 0x8E then some 0x017D
  else if b = 0x91 then some 0x2018
  else if b = 0x92 then some 0x2019
  else if b = 0x93 then some 0x201C
  else if b = 0x94 then some 0x201D
  else if b = 0x95 then some 0x2022
  else if b = 0x96 then some 0x2013
  else if b = 0x97 then some 0x2014
  else if b = 0x98 then some 0x02DC
  else if b = 0x99 then some 0x2122
  else if b = 0x9A then some 0x0161
  else if b = 0x9B then some 0x203A
  else if b = 0x9C then some 0x0153
  else if b = 0x9E then some 0x017E
  else if b = 0x9F then some 0x0178
  else if b = 0x81 || b = 0x8D || b = 0x8F || b = 0x90 || b = 0x9D then none
  else some b

/-- Decode of the cp1252 codec over a whole byte list. -/
def cp1252Decode (bs : List Nat) : Option (List Nat) :=
  bs.mapM cp1252Byte

/-- Universal newline translation performed by Python text-mode reading:
CR LF and lone CR both become LF. -/
def univNewlines : List Nat → List Nat
  | 13 :: 10 :: r => 10 :: univNewlines r
  | 13 :: r => 10 :: univNewlines r
  | c :: r => c :: univNewlines r
  | [] => []

/-- Decode of one named codec, as invoked by open with an encoding
argument.  The latin-1 and iso-8859-1 codecs map every byte to the code
point of the same value and never fail. -/
def decodeWith (enc : String) (bs : List Nat) : Option (List Nat) :=
  if enc = "utf-8" then utf8Decode bs
  else if enc = "utf-8-sig" then utf8Decode (stripBom bs)
  else if enc = "latin-1" then some bs
  else if enc = "cp1252" then cp1252Decode bs
  else if enc = "iso-8859-1" then some bs
  else none

/-- Encoding fallback list encodings_to_try of _convert_file_to_text, in
source order. -/
def encodings_to_try : List String :=
  ["utf-8", "utf-8-sig", "latin-1", "cp1252", "iso-8859-1"]

/-- One iteration of the fallback loop: open and read the file in text
mode with the given encoding.  A failed read raises and is caught by the
per-encoding except clause, indistinguishable from a decode failure. -/
def decodeAttempt (f : SrcFile) (enc : String) : Option (List Nat) :=
  if f.readFullOk then (decodeWith enc f.content).map univNewlines else none

/-- Fallback loop of _convert_file_to_text: try each encoding in order and
stop at the first that reads and decodes. -/
def decodeLoop (f : SrcFile) : List String → Option (String × List Nat)
  | [] => none
  | e :: rest =>
    match decodeAttempt f e with
    | some t => some (e, t)
    | none => decodeLoop f rest

/-- Statistics accumulator self.stats of CodebaseConverter.  The
conversion_duration_seconds entry records wall-clock time and is outside
this embedding. -/
structure Stats where
  total_files_processed : Nat
  files_converted : Nat
  files_skipped_binary : Nat
  files_skipped_encoding : Nat
  files_skipped_excluded : Nat
  total_size_bytes : Nat
  directories_processed : Nat
  conversion_errors : List String
deriving Repr, DecidableEq

/-- Content of a file written below the output root.  A converted file
carries the encoding recorded in its provenance header and the decoded
text; a placeholder carries its reason line; the summary carries the final
statistics it renders. -/
inductive OutContent where
  | converted (encoding : String) (text : List Nat)
  | placeholder (reason : String)
  | summary (finalStats : Stats)
deriving Repr, DecidableEq

/-- File written below the output root: directory path relative to the
root, file name, content. -/
structure OutFile where
  path : List String
  fname : String
  content : OutContent
deriving Repr, DecidableEq

/-- State of one conversion run: the statistics accumulator, the files
written so far, and the directories created so far (parent path relative
to the output root, directory name). -/
structure RunState where
  stats : Stats
  outFiles : List OutFile
  outDirs : List (List String × String)
deriving Repr, DecidableEq

/-- Names of files already present in the output directory at the given
relative path. -/
def usedFileNames (st : RunState) (rel : List String) : List String :=
  (st.outFiles.filter (fun o => o.path = rel)).map OutFile.fname

/-- Names of subdirectories already created in the output directory at the
given relative path. -/
def usedDirNames (st : RunState) (rel : List String) : List String :=
  (st.outDirs.filter (fun d => d.1 = rel)).map Prod.snd

/-- Names for which a path exists in the output directory at the given
relative path, as tested by target_file.exists. -/
def usedNames (st : RunState) (rel : List String) : List String :=
  usedFileNames st rel ++ usedDirNames st rel

/-- Decimal digit characters of a positive number, most significant first.
The first argument is fuel, always called with at least the value of the
second. -/
def decDigitsAux : Nat → Nat → List Char
  | 0, _ => []
  | fuel + 1, n =>
    if n = 0 then [] else decDigitsAux fuel (n / 10) ++ [Nat.digitChar (n % 10)]

/-- Decimal rendering of a natural number, as Python str of an int. -/
def natDecimal (n : Nat) : String :=
  if n = 0 then "0" else String.mk (decDigitsAux n n)

/-- Collision candidate of _process_file for counter value k: the string
interpolation base_filename underscore counter dot txt. -/
def candidateName (stem : String) (k : Nat) : String :=
  stem ++ "_" ++ natDecimal k ++ ".txt"

/-- While loop of _process_file that advances the counter as long as the
candidate name exists.  Fuel bounds the iterations; the callers pass one
more than the number of used names, which the pigeonhole argument below
proves sufficient, so the fuel-exhausted branch is never reached. -/
def resolveLoop (stem : String) (used : List String) : Nat → Nat → String
  | 0, k => candidateName stem k
  | fuel + 1, k =>
    if candidateName stem k ∈ used then resolveLoop stem used fuel (k + 1)
    else candidateName stem k

/-- Target name selection of _process_file: the stem with a txt extension,
with underscore-counter collision resolution starting at 1 while the name
exists. -/
def resolveTargetName (stem : String) (used : List String) : String :=
  if stem ++ ".txt" ∈ used then resolveLoop stem used (used.length + 1) 1
  else stem ++ ".txt"

/-- Embedding of _convert_file_to_text on one source file: content
sniffing first, then the encoding fallback loop; the Bool is the return
value of the source function and the content is what is written to the
target file (converted text after a success, explanatory placeholder
otherwise). -/
def convert_file_to_text (f : SrcFile) : Bool × OutContent :=
  if is_binary_file f then (false, .placeholder "Binary file")
  else
    match decodeLoop f encodings_to_try with
    | some (enc, text) => (true, .converted enc text)
    | none => (false, .placeholder "Could not decode with any encoding")

/-- Source path rendering used in error strings, joining the source root
with the path components. -/
def pathString (root : String) (comps : List String) : String :=
  comps.foldl (fun a c => a ++ "/" ++ c) root

/-- Embedding of _process_file on one source file sitting at the relative
directory path rel: count the file, stat it (a stat failure is caught by
the per-file except clause and recorded), apply the size guard and the
extension guard, resolve the target name against the names existing in
the target directory, convert, and record the outcome. -/
def process_file (root : String) (rel : List String) (f : SrcFile) (st : RunState) : RunState :=
  let s1 := { st.stats with total_files_processed := st.stats.total_files_processed + 1 }
  if ! f.statOk then
    { st with stats :=
      { s1 with conversion_errors :=
        s1.conversion_errors ++
          ["File error " ++ pathString root (rel ++ [f.name]) ++ ": " ++ f.errMsg] } }
  else
    let s2 := { s1 with total_size_bytes := s1.total_size_bytes + f.size }
    if f.size > 10 * 1024 * 1024 then
      { st with stats := { s2 with files_skipped_binary := s2.files_skipped_binary + 1 } }
    else if strToLower (pySuffix f.name) ∈ EXCLUDED_EXTENSIONS then
      { st with stats := { s2 with files_skipped_binary := s2.files_skipped_binary + 1 } }
    else
      let tname := resolveTargetName (pyStem f.name) (usedNames st rel)
      match convert_file_to_text f with
      | (true, c) =>
        { stats := { s2 with files_converted := s2.files_converted + 1 },
          outFiles := st.outFiles ++ [⟨rel, tname, c⟩],
          outDirs := st.outDirs }
      | (false, c) =>
        { stats := { s2 with files_skipped_encoding := s2.files_skipped_encoding + 1 },
          outFiles := st.outFiles ++ [⟨rel, tname, c⟩],
          outDirs := st.outDirs }

/-- Source directory tree as the walker observes it: a file entry, or a
directory entry with a base name, an iterdir-succeeds flag, and children
in visitation order. -/
inductive Entry where
  | file (f : SrcFile)
  | dir (dname : String) (listOk : Bool) (children : List Entry)
deriving Repr

/-- Exclusion test of _process_directory on a subdirectory name:
membership in EXCLUDED_DIRS or a leading dot. -/
def excludedDir (dname : String) : Bool :=
  dname ∈ EXCLUDED_DIRS || dname.data.head? = some '.'

/-- Mirrored directory creation of _process_directory for a non-excluded
subdirectory whose mkdir call succeeds (exist_ok suppresses the
already-a-directory case), followed by the directories_processed
increment. -/
def mkdirStep (st : RunState) (rel : List String) (dname : String) : RunState :=
  let st1 :=
    if dname ∈ usedDirNames st rel then st
    else { st with outDirs := st.outDirs ++ [(rel, dname)] }
  { st1 with stats :=
    { st1.stats with directories_processed := st1.stats.directories_processed + 1 } }

mutual

/-- Body of one loop iteration of _process_directory over an entry of the
current source directory.  A second component of some msg models an
exception escaping the iteration into the enclosing except clause: the
only such exception is mkdir failing because a file of the same name
already exists in the target directory.  A file entry is dispatched to
_process_file, which catches everything itself. -/
def procEntry (root : String) (rel : List String) (e : Entry) (st : RunState) :
    RunState × Option String :=
  match e with
  | .file f => (process_file root rel f st, none)
  | .dir dname listOk children =>
    if excludedDir dname then (st, none)
    else if dname ∈ usedFileNames st rel then
      (st, some ("File exists: " ++ pathString root (rel ++ [dname])))
    else
      (procDirBody root (rel ++ [dname]) listOk children (mkdirStep st rel dname), none)

/-- Loop of _process_directory over the remaining entries; an exception in
one iteration aborts the remaining iterations and propagates to the
enclosing except clause. -/
def procSeq (root : String) (rel : List String) (es : List Entry) (st : RunState) :
    RunState × Option String :=
  match es with
  | [] => (st, none)
  | e :: rest =>
    match procEntry root rel e st with
    | (st1, some msg) => (st1, some msg)
    | (st1, none) => procSeq root rel rest st1

/-- Embedding of _process_directory on one source directory: when listing
fails the except clause records a permission error, otherwise the loop
runs and an exception escaping it is recorded as a directory error.
Either way nothing propagates further up. -/
def procDirBody (root : String) (rel : List String) (listOk : Bool)
    (children : List Entry) (st : RunState) : RunState :=
  if listOk then
    match procSeq root rel children st with
    | (st1, none) => st1
    | (st1, some msg) =>
      { st1 with stats := { st1.stats with conversion_errors :=
        st1.stats.conversion_errors ++
          ["Directory error " ++ pathString root rel ++ ": " ++ msg] } }
  else
    { st with stats := { st.stats with conversion_errors :=
      st.stats.conversion_errors ++ ["Permission denied: " ++ pathString root rel] } }

end

/-- Fresh statistics accumulator as initialized in the constructor. -/
def initStats : Stats := ⟨0, 0, 0, 0, 0, 0, 0, []⟩

/-- Run state at the start of a conversion: empty statistics, no output
files, no created directories. -/
def initState : RunState := ⟨initStats, [], []⟩

/-- Contents found at the resolved output path before a run starts. -/
structure PriorOutput where
  files : List OutFile
  dirs : List (List String × String)
deriving Repr, DecidableEq

/-- Cleanup step of convert_repository_to_text: when the resolved output
directory already exists, shutil.rmtree deletes it with all contents, so
nothing pre-existing survives into the run. -/
def outputRootAfterCleanup (prior : Option PriorOutput) : Option PriorOutput :=
  match prior with
  | some _ => none
  | none => none

/-- Run state seeded from whatever the cleanup step left at the output
path, followed by mkdir of a fresh output root. -/
def initialStateFor (prior : Option PriorOutput) : RunState :=
  match outputRootAfterCleanup prior with
  | some p => { stats := initStats, outFiles := p.files, outDirs := p.dirs }
  | none => initState

/-- Summary writer _create_conversion_summary: open CONVERSION_SUMMARY.txt
at the output root in write mode (truncating any file written there by the
traversal) and render the final statistics.  When a directory of that name
occupies the output root the open fails and the except clause swallows the
error leaving the state unchanged. -/
def writeSummary (st : RunState) : RunState :=
  if "CONVERSION_SUMMARY.txt" ∈ usedDirNames st [] then st
  else
    let kept := st.outFiles.filter
      (fun o => ! (o.path = ([] : List String) && o.fname = "CONVERSION_SUMMARY.txt"))
    { st with outFiles := kept ++ [⟨[], "CONVERSION_SUMMARY.txt", .summary st.stats⟩] }

/-- Traversal part of convert_repository_to_text: the single call of
_process_directory on the source root against a fresh output root. -/
def runTraversal (root : String) (listOk : Bool) (entries : List Entry) : RunState :=
  procDirBody root [] listOk entries initState

/-- Embedding of convert_repository_to_text: delete any pre-existing
output directory, create a fresh one, walk the source tree, and write the
summary file. -/
def convert_repository_to_text (prior : Option PriorOutput) (root : String)
    (listOk : Bool) (entries : List Entry) : RunState :=
  writeSummary (procDirBody root [] listOk entries (initialStateFor prior))

/-- Entry of the archive produced by create_conversion_zip: the arcname
path components relative to the converted directory, and the copied
content. -/
structure ZipEntry where
  arcname : List String
  data : OutContent
deriving Repr, DecidableEq

/-- Embedding of create_conversion_zip: rglob enumerates the files below
the converted directory (directories are not written as entries), and each
file is stored under its path relative to that directory. -/
def create_conversion_zip (outFiles : List OutFile) : List ZipEntry :=
  outFiles.map (fun o => ⟨o.path ++ [o.fname], o.content⟩)

/-- Directories an extractor must create for one entry path: every proper
prefix of the path, paired as parent path and directory name. -/
def ancestorDirs : List String → List (List String × String)
  | [] => []
  | [_] => []
  | d :: rest => ([], d) :: (ancestorDirs rest).map (fun q => (d :: q.1, q.2))

/-- Extraction semantics of a standard ZIP extractor on the produced
archive: each entry becomes a file at its arcname, and exactly the
directories leading to some entry are created. -/
def extractZip (entries : List ZipEntry) : List OutFile × List (List String × String) :=
  (entries.map (fun z => ⟨z.arcname.dropLast, z.arcname.getLastD "", z.data⟩),
   (entries.flatMap (fun z => ancestorDirs z.arcname)).dedup)

/-- Decimal reading of a digit string, the left inverse of natDecimal used
to prove the collision counter rendering injective. -/
def decodeDec (cs : List Char) : Nat :=
  cs.foldl (fun a c => a * 10 + (c.toNat - 48)) 0

/-- Test that a string ends with the four characters dot t x t, the shape
of every file name the engine writes. -/
def endsTxt (s : String) : Bool :=
  s.data.reverse.take 4 = ['t', 'x', 't', '.']

mutual

/-- Number of files the walker dispatches below one entry: files count
one, excluded directories count zero, other directories count their
children. -/
def countFilesE : Entry → Nat
  | .file _ => 1
  | .dir dname _ children => if excludedDir dname then 0 else countFilesL children

/-- Number of files the walker dispatches in a list of entries. -/
def countFilesL : List Entry → Nat
  | [] => 0
  | e :: rest => countFilesE e + countFilesL rest

end

mutual

/-- Well-formedness of one entry for a failure-free traversal: every
non-excluded directory is listable and its name does not end in dot txt,
so no mkdir call can collide with a written output file. -/
def goodDirsE : Entry → Bool
  | .file _ => true
  | .dir dname listOk children =>
    if excludedDir dname then true
    else listOk && ! endsTxt dname && goodDirsL children

/-- Well-formedness of a list of entries for a failure-free traversal. -/
def goodDirsL : List Entry → Bool
  | [] => true
  | e :: rest => goodDirsE e && goodDirsL rest

end

mutual

/-- Error strings the per-file except clause of _process_file emits below
one entry, in traversal order: one entry per dispatched file whose stat
raises. -/
def badErrsE (root : String) (rel : List String) : Entry → List String
  | .file f =>
    if f.statOk then []
    else ["File error " ++ pathString root (rel ++ [f.name]) ++ ": " ++ f.errMsg]
  | .dir dname _ children =>
    if excludedDir dname then [] else badErrsL root (rel ++ [dname]) children

/-- Error strings the per-file except clause emits in a list of entries. -/
def badErrsL (root : String) (rel : List String) : List Entry → List String
  | [] => []
  | e :: rest => badErrsE root rel e ++ badErrsL root rel rest

end

/-- Sum of the three per-file outcome counters, the left side of the
bookkeeping invariant of the statistics. -/
def statSum3 (s : Stats) : Nat :=
  s.files_converted + s.files_skipped_binary + s.files_skipped_encoding

/-- Bookkeeping relation between a state and a later state of the same
run: files_skipped_excluded is unchanged, the number of written files
grows exactly by the growth of files_converted plus
files_skipped_encoding, and the outcome counters grow by at most the
growth of total_files_processed. -/
def walkInv (st stq : RunState) : Prop :=
  stq.stats.files_skipped_excluded = st.stats.files_skipped_excluded ∧
  stq.outFiles.length + st.stats.files_converted + st.stats.files_skipped_encoding =
    st.outFiles.length + stq.stats.files_converted + stq.stats.files_skipped_encoding ∧
  statSum3 stq.stats + st.stats.total_files_processed ≤
    statSum3 st.stats + stq.stats.total_files_processed

/-- Freedom from name collisions in the output tree: in every output
directory the names of written files and created subdirectories are
pairwise distinct. -/
def nodupUsed (st : RunState) : Prop :=
  ∀ rel : List String, (usedNames st rel).Nodup

/-- Latin-1 reading succeeds on every byte sequence once the read itself
succeeds. -/
theorem decodeAttempt_latin1 (f : SrcFile) (h : f.readFullOk = true) :
    decodeAttempt f "latin-1" = some (univNewlines f.content) := by
  simp [decodeAttempt, decodeWith, h]

/-- C9: when the resolved output directory already exists at the start of
a conversion, convert_repository_to_text deletes it together with all its
contents before creating a fresh one, so the result of a run is identical
for every pre-existing state of the output path and nothing of the prior
data survives into the run. -/
theorem claim_C9_cleanup_destroys_prior (prior : Option PriorOutput) (root : String)
    (listOk : Bool) (entries : List Entry) :
    outputRootAfterCleanup prior = none ∧
    initialStateFor prior = initState ∧
    convert_repository_to_text prior root listOk entries =
      convert_repository_to_text none root listOk entries := by
  refine ⟨?_, ?_, ?_⟩
  · cases prior <;> rfl
  · cases prior <;> rfl
  · cases prior <;> rfl

/-- C5: a file whose stat succeeds and whose size strictly exceeds 10 MiB
is counted in total_files_processed, its size is added to
total_size_bytes, files_skipped_binary is incremented, and _process_file
returns before the extension guard, the sniffing and the decoding: the
resulting state is fully determined by the size alone, no output file is
written and the content is never read. -/
theorem claim_C5_size_guard (root : String) (rel : List String) (f : SrcFile)
    (st : RunState) (hstat : f.statOk = true) (hsize : 10 * 1024 * 1024 < f.size) :
    process_file root rel f st =
      { st with stats :=
        { st.stats with
          total_files_processed := st.stats.total_files_processed + 1,
          total_size_bytes := st.stats.total_size_bytes + f.size,
          files_skipped_binary := st.stats.files_skipped_binary + 1 } } := by
  simp [process_file, hstat, hsize]

/-- Witness for C5 at a concrete oversized file whose content is valid
UTF-8 text: it is still skipped as binary with no output written. -/
theorem claim_C5_size_guard_witness :
    process_file "/src" [] ⟨"big.txt", 10485761, [104, 105], true, true, true, ""⟩
        initState =
      { initState with stats :=
        { initState.stats with
          total_files_processed := 1,
          total_size_bytes := 10485761,
          files_skipped_binary := 1 } } :=
  claim_C5_size_guard "/src" [] _ initState rfl (by decide)

/-- C3 counterexample: the file a.py passes the extension guard, is
classified binary by content sniffing (null byte), and the code counts it
under files_skipped_encoding, not under files_skipped_binary as the claim
states. -/
theorem claim_C3_counterexample :
    is_binary_file ⟨"a.py", 2, [0, 1], true, true, true, ""⟩ = true ∧
    strToLower (pySuffix "a.py") ∉ EXCLUDED_EXTENSIONS ∧
    (process_file "/src" [] ⟨"a.py", 2, [0, 1], true, true, true, ""⟩ initState).stats.files_skipped_binary = 0 ∧
    (process_file "/src" [] ⟨"a.py", 2, [0, 1], true, true, true, ""⟩ initState).stats.files_skipped_encoding = 1 := by
  decide

/-- C3 as amended: a file that passes the size and extension guards but is
classified binary by content sniffing gets exactly one placeholder with
reason Binary file, files_converted is unchanged, and the skip is counted
under files_skipped_encoding (the extension-guard counter
files_skipped_binary is unchanged). -/
theorem claim_C3_sniffed_binary (root : String) (rel : List String) (f : SrcFile)
    (st : RunState) (hstat : f.statOk = true)
    (hsize : ¬ 10 * 1024 * 1024 < f.size)
    (hext : strToLower (pySuffix f.name) ∉ EXCLUDED_EXTENSIONS)
    (hbin : is_binary_file f = true) :
    process_file root rel f st =
      { stats :=
        { st.stats with
          total_files_processed := st.stats.total_files_processed + 1,
          total_size_bytes := st.stats.total_size_bytes + f.size,
          files_skipped_encoding := st.stats.files_skipped_encoding + 1 },
        outFiles := st.outFiles ++
          [⟨rel, resolveTargetName (pyStem f.name) (usedNames st rel),
            OutContent.placeholder "Binary file"⟩],
        outDirs := st.outDirs } := by
  simp [process_file, convert_file_to_text, hstat, hsize, hext, hbin]

/-- Witness for C3 as amended, at the file of the counterexample. -/
theorem claim_C3_sniffed_binary_witness :
    process_file "/src" [] ⟨"a.py", 2, [0, 1], true, true, true, ""⟩ initState =
      { stats :=
        { initState.stats with
          total_files_processed := 1,
          total_size_bytes := 2,
          files_skipped_encoding := 1 },
        outFiles := [⟨[], "a.txt", OutContent.placeholder "Binary file"⟩],
        outDirs := [] } :=
  claim_C3_sniffed_binary "/src" [] _ initState rfl (by decide) (by decide) (by decide)

/-- C4: the fallback loop tries utf-8, utf-8-sig, latin-1, cp1252 and
iso-8859-1 in that order and stops at the first success; whenever the
text-mode reads succeed the loop cannot fall through (latin-1 decodes
every byte sequence), so the placeholder for undecodable content is
written only when read io fails. -/
theorem claim_C4_encoding_fallback :
    encodings_to_try = ["utf-8", "utf-8-sig", "latin-1", "cp1252", "iso-8859-1"] ∧
    (∀ (f : SrcFile) (l : List String) (enc : String) (text : List Nat),
      decodeLoop f l = some (enc, text) →
      ∃ l1 l2, l = l1 ++ enc :: l2 ∧ (∀ e ∈ l1, decodeAttempt f e = none) ∧
        decodeAttempt f enc = some text) ∧
    (∀ f : SrcFile, f.readFullOk = true →
      (∃ enc text, decodeLoop f encodings_to_try = some (enc, text)) ∧
      convert_file_to_text f ≠
        (false, OutContent.placeholder "Could not decode with any encoding")) ∧
    (∀ f : SrcFile,
      convert_file_to_text f =
        (false, OutContent.placeholder "Could not decode with any encoding") →
      f.readFullOk = false) := by
  have hfirst : ∀ (f : SrcFile) (l : List String) (enc : String) (text : List Nat),
      decodeLoop f l = some (enc, text) →
      ∃ l1 l2, l = l1 ++ enc :: l2 ∧ (∀ e ∈ l1, decodeAttempt f e = none) ∧
        decodeAttempt f enc = some text := by
    intro f l
    induction l with
    | nil => intro enc text h; simp [decodeLoop] at h
    | cons e rest ih =>
      intro enc text h
      rw [decodeLoop] at h
      cases hd : decodeAttempt f e with
      | some t =>
        rw [hd] at h
        obtain ⟨he, ht⟩ : e = enc ∧ t = text := by
          constructor <;> [exact (Prod.mk.injEq _ _ _ _ ▸ Option.some.injEq _ _ ▸ h).1;
            exact (Prod.mk.injEq _ _ _ _ ▸ Option.some.injEq _ _ ▸ h).2]
        subst he; subst ht
        exact ⟨[], rest, rfl, by simp, hd⟩
      | none =>
        rw [hd] at h
        obtain ⟨l1, l2, hl, hnone, hsome⟩ := ih enc text h
        exact ⟨e :: l1, l2, by simp [hl], by
          intro x hx
          rcases List.mem_cons.mp hx with hx | hx
          · subst hx; exact hd
          · exact hnone x hx, hsome⟩
  have hsucc : ∀ f : SrcFile, f.readFullOk = true →
      ∃ enc text, decodeLoop f encodings_to_try = some (enc, text) := by
    intro f h
    have hl1 := decodeAttempt_latin1 f h
    rw [encodings_to_try]
    rw [decodeLoop]
    cases h1 : decodeAttempt f "utf-8" with
    | some t => exact ⟨"utf-8", t, rfl⟩
    | none =>
      rw [decodeLoop]
      cases h2 : decodeAttempt f "utf-8-sig" with
      | some t => exact ⟨"utf-8-sig", t, rfl⟩
      | none =>
        rw [decodeLoop, hl1]
        exact ⟨"latin-1", univNewlines f.content, rfl⟩
  have hne : ∀ f : SrcFile, f.readFullOk = true →
      convert_file_to_text f ≠
        (false, OutContent.placeholder "Could not decode with any encoding") := by
    intro f h hcontra
    rw [convert_file_to_text] at hcontra
    by_cases hb : is_binary_file f = true
    · rw [if_pos hb] at hcontra
      have : "Binary file" = "Could not decode with any encoding" := by
        have := (Prod.mk.injEq _ _ _ _ ▸ hcontra).2
        exact OutContent.placeholder.injEq _ _ ▸ this
      simp at this
    · rw [if_neg hb] at hcontra
      obtain ⟨enc, text, hl⟩ := hsucc f h
      rw [hl] at hcontra
      simp at hcontra
  refine ⟨rfl, hfirst, fun f h => ⟨hsucc f h, hne f h⟩, ?_⟩
  intro f hcontra
  by_contra hr
  exact hne f (Bool.not_eq_false f.readFullOk ▸ hr) hcontra

/-- Witness for C4 at a file whose single byte 255 is rejected by utf-8
and utf-8-sig and accepted by latin-1. -/
theorem claim_C4_encoding_fallback_witness :
    (⟨"x", 1, [255], true, true, true, ""⟩ : SrcFile).readFullOk = true ∧
    ((∃ enc text,
        decodeLoop ⟨"x", 1, [255], true, true, true, ""⟩ encodings_to_try =
          some (enc, text)) ∧
      convert_file_to_text ⟨"x", 1, [255], true, true, true, ""⟩ ≠
        (false, OutContent.placeholder "Could not decode with any encoding")) :=
  ⟨rfl, claim_C4_encoding_fallback.2.2.1 _ rfl⟩

/-- Character codes of decimal digits. -/
theorem digitChar_toNat : ∀ d : Nat, d < 10 → (Nat.digitChar d).toNat = 48 + d := by
  decide

/-- Reading one more digit. -/
theorem decodeDec_append (l : List Char) (c : Char) :
    decodeDec (l ++ [c]) = decodeDec l * 10 + (c.toNat - 48) := by
  simp [decodeDec, List.foldl_append]

/-- The decimal reader inverts the digit rendering when the fuel covers
the number. -/
theorem decodeDec_decDigitsAux : ∀ fuel n : Nat, n ≤ fuel →
    decodeDec (decDigitsAux fuel n) = n := by
  intro fuel
  induction fuel with
  | zero =>
    intro n hn
    interval_cases n
    simp [decDigitsAux, decodeDec]
  | succ fuel ih =>
    intro n hn
    match n with
    | 0 => simp [decDigitsAux, decodeDec]
    | m + 1 =>
      rw [decDigitsAux, if_neg (Nat.succ_ne_zero m), decodeDec_append]
      have hdiv : (m + 1) / 10 ≤ fuel := by
        have := Nat.div_lt_self (Nat.succ_pos m) (by norm_num : 1 < 10)
        omega
      rw [ih _ hdiv, digitChar_toNat _ (Nat.mod_lt _ (by norm_num))]
      omega

/-- The decimal reader inverts natDecimal on every number. -/
theorem decodeDec_natDecimal (n : Nat) : decodeDec (natDecimal n).data = n := by
  rw [natDecimal]
  split
  · subst n
    decide
  · exact decodeDec_decDigitsAux n n le_rfl

/-- Python decimal rendering of distinct counters is distinct. -/
theorem natDecimal_inj {m n : Nat} (h : natDecimal m = natDecimal n) : m = n := by
  have := congrArg String.data h
  calc m = decodeDec (natDecimal m).data := (decodeDec_natDecimal m).symm
    _ = decodeDec (natDecimal n).data := by rw [this]
    _ = n := decodeDec_natDecimal n

/-- Collision candidates for distinct counters are distinct names. -/
theorem candidateName_inj (stem : String) {i j : Nat}
    (h : candidateName stem i = candidateName stem j) : i = j := by
  apply natDecimal_inj
  apply String.ext
  have hd := congrArg String.data h
  simp only [candidateName, String.data_append] at hd
  have h1 := List.append_cancel_right hd
  exact List.append_cancel_left h1

/-- Pigeonhole: among the first length-plus-one collision candidates at
least one is not a used name. -/
theorem exists_free_candidate (stem : String) (used : List String) :
    ∃ k, 1 ≤ k ∧ k ≤ used.length + 1 ∧ candidateName stem k ∉ used := by
  by_contra hall
  push_neg at hall
  have hsub : ((List.range (used.length + 1)).map
      (fun i => candidateName stem (i + 1))) ⊆ used := by
    intro x hx
    obtain ⟨i, hi, rfl⟩ := List.mem_map.mp hx
    have := List.mem_range.mp hi
    exact hall (i + 1) (by omega) (by omega)
  have hnodup : ((List.range (used.length + 1)).map
      (fun i => candidateName stem (i + 1))).Nodup := by
    refine (List.nodup_range _).map ?_
    intro a b hab
    have := candidateName_inj stem hab
    omega
  have := (List.subperm_of_subset hnodup hsub).length_le
  simp only [List.length_map, List.length_range] at this
  omega

/-- Correctness of the collision while loop: given some free candidate
within the fuel window starting at counter k, the loop stops at the least
free candidate at or after k. -/
theorem resolveLoop_spec (stem : String) (used : List String) :
    ∀ fuel k : Nat, (∃ j, k ≤ j ∧ j < k + fuel ∧ candidateName stem j ∉ used) →
    ∃ m, k ≤ m ∧ candidateName stem m ∉ used ∧
      (∀ j, k ≤ j → j < m → candidateName stem j ∈ used) ∧
      resolveLoop stem used fuel k = candidateName stem m := by
  intro fuel
  induction fuel with
  | zero =>
    intro k ⟨j, hj1, hj2, _⟩
    omega
  | succ fuel ih =>
    intro k ⟨j, hj1, hj2, hj3⟩
    rw [resolveLoop]
    by_cases hk : candidateName stem k ∈ used
    · rw [if_pos hk]
      have hjk : k + 1 ≤ j := by
        rcases Nat.lt_or_ge k j with h | h
        · omega
        · exfalso; have : j = k := by omega
          subst this; exact hj3 hk
      obtain ⟨m, hm1, hm2, hm3, hm4⟩ := ih (k + 1) ⟨j, hjk, by omega, hj3⟩
      refine ⟨m, by omega, hm2, ?_, hm4⟩
      intro i hi1 hi2
      rcases Nat.lt_or_ge i (k + 1) with h | h
      · have : i = k := by omega
        subst this; exact hk
      · exact hm3 i h hi2
    · rw [if_neg hk]
      exact ⟨k, le_rfl, hk, by omega, rfl⟩

/-- Correctness of resolveTargetName: the chosen name is unused; it is the
plain stem name when that is free, and otherwise the candidate with the
least counter from 1 with no gaps. -/
theorem resolveTargetName_spec (stem : String) (used : List String) :
    resolveTargetName stem used ∉ used ∧
    (stem ++ ".txt" ∉ used → resolveTargetName stem used = stem ++ ".txt") ∧
    (stem ++ ".txt" ∈ used →
      ∃ m, 1 ≤ m ∧ candidateName stem m ∉ used ∧
        (∀ j, 1 ≤ j → j < m → candidateName stem j ∈ used) ∧
        resolveTargetName stem used = candidateName stem m) := by
  by_cases h0 : stem ++ ".txt" ∈ used
  · obtain ⟨k, hk1, hk2, hk3⟩ := exists_free_candidate stem used
    obtain ⟨m, hm1, hm2, hm3, hm4⟩ :=
      resolveLoop_spec stem used (used.length + 1) 1 ⟨k, hk1, by omega, hk3⟩
    rw [resolveTargetName]
    rw [if_pos h0]
    exact ⟨hm4 ▸ hm2, fun hc => absurd h0 hc, fun _ => ⟨m, hm1, hm2, hm3, hm4⟩⟩
  · rw [resolveTargetName, if_neg h0]
    exact ⟨h0, fun _ => rfl, fun hc => absurd hc h0⟩

/-- Every name of the shape something dot txt passes endsTxt. -/
theorem endsTxt_append (s : String) : endsTxt (s ++ ".txt") = true := by
  have hd : (s ++ ".txt").data = s.data ++ ['.', 't', 'x', 't'] := String.data_append s ".txt"
  unfold endsTxt
  rw [hd, List.reverse_append]
  rfl

/-- The name chosen by the collision resolution always ends in dot txt. -/
theorem resolveTargetName_endsTxt (stem : String) (used : List String) :
    endsTxt (resolveTargetName stem used) = true := by
  obtain ⟨h1, h2, h3⟩ := resolveTargetName_spec stem used
  by_cases h0 : stem ++ ".txt" ∈ used
  · obtain ⟨m, _, _, _, heq⟩ := h3 h0
    rw [heq]
    exact endsTxt_append (stem ++ "_" ++ natDecimal m)
  · rw [h2 h0]
    exact endsTxt_append stem

/-- Case analysis of _process_file: a stat failure records an error and
changes nothing else; a guard skip bumps files_skipped_binary; otherwise
exactly one output file is appended under the resolved name and exactly
one of files_converted and files_skipped_encoding is bumped. -/
theorem process_file_cases (root : String) (rel : List String) (f : SrcFile)
    (st : RunState) :
    (f.statOk = false ∧ process_file root rel f st =
      { st with stats := { st.stats with
          total_files_processed := st.stats.total_files_processed + 1,
          conversion_errors := st.stats.conversion_errors ++
            ["File error " ++ pathString root (rel ++ [f.name]) ++ ": " ++ f.errMsg] } }) ∨
    (f.statOk = true ∧ process_file root rel f st =
      { st with stats := { st.stats with
          total_files_processed := st.stats.total_files_processed + 1,
          total_size_bytes := st.stats.total_size_bytes + f.size,
          files_skipped_binary := st.stats.files_skipped_binary + 1 } }) ∨
    (f.statOk = true ∧ ∃ c, process_file root rel f st =
      { stats := { st.stats with
          total_files_processed := st.stats.total_files_processed + 1,
          total_size_bytes := st.stats.total_size_bytes + f.size,
          files_converted := st.stats.files_converted + 1 },
        outFiles := st.outFiles ++
          [⟨rel, resolveTargetName (pyStem f.name) (usedNames st rel), c⟩],
        outDirs := st.outDirs }) ∨
    (f.statOk = true ∧ ∃ c, process_file root rel f st =
      { stats := { st.stats with
          total_files_processed := st.stats.total_files_processed + 1,
          total_size_bytes := st.stats.total_size_bytes + f.size,
          files_skipped_encoding := st.stats.files_skipped_encoding + 1 },
        outFiles := st.outFiles ++
          [⟨rel, resolveTargetName (pyStem f.name) (usedNames st rel), c⟩],
        outDirs := st.outDirs }) := by
  cases hst : f.statOk with
  | false =>
    left
    exact ⟨rfl, by simp [process_file, hst]⟩
  | true =>
    right
    by_cases h2 : 10 * 1024 * 1024 < f.size
    · left
      exact ⟨rfl, by simp [process_file, hst, h2]⟩
    · by_cases h3 : strToLower (pySuffix f.name) ∈ EXCLUDED_EXTENSIONS
      · left
        exact ⟨rfl, by simp [process_file, hst, h2, h3]⟩
      · right
        rcases hc : convert_file_to_text f with ⟨b, c⟩
        cases b with
        | true =>
          left
          exact ⟨rfl, c, by simp [process_file, hst, h2, h3, hc]⟩
        | false =>
          right
          exact ⟨rfl, c, by simp [process_file, hst, h2, h3, hc]⟩

/-- Per-file projection facts of _process_file used throughout the
traversal proofs. -/
theorem process_file_facts (root : String) (rel : List String) (f : SrcFile)
    (st : RunState) :
    (process_file root rel f st).stats.total_files_processed =
      st.stats.total_files_processed + 1 ∧
    (process_file root rel f st).outDirs = st.outDirs ∧
    (process_file root rel f st).stats.directories_processed =
      st.stats.directories_processed ∧
    (process_file root rel f st).stats.conversion_errors =
      st.stats.conversion_errors ++ badErrsE root rel (Entry.file f) ∧
    walkInv st (process_file root rel f st) := by
  rcases process_file_cases root rel f st with ⟨h, he⟩ | ⟨h, he⟩ | ⟨h, c, he⟩ | ⟨h, c, he⟩ <;>
    rw [he] <;>
    simp [badErrsE, h, walkInv, statSum3] <;>
    omega

/-- The walk relation is reflexive. -/
theorem walkInv_refl (st : RunState) : walkInv st st := by
  simp [walkInv]

/-- The walk relation composes. -/
theorem walkInv_trans {st1 st2 st3 : RunState} (h1 : walkInv st1 st2)
    (h2 : walkInv st2 st3) : walkInv st1 st3 := by
  obtain ⟨a1, a2, a3⟩ := h1
  obtain ⟨b1, b2, b3⟩ := h2
  exact ⟨by omega, by omega, by omega⟩

/-- Creating a mirrored directory does not touch the file counters. -/
theorem walkInv_mkdirStep (st : RunState) (rel : List String) (dname : String) :
    walkInv st (mkdirStep st rel dname) := by
  rw [mkdirStep]
  split <;> simp [walkInv, statSum3]

/-- Recording errors does not touch the file counters. -/
theorem walkInv_addErr (st : RunState) (l : List String) :
    walkInv st { st with stats := { st.stats with conversion_errors := l } } := by
  simp [walkInv, statSum3]

mutual

/-- Bookkeeping invariant across one loop iteration of the walker. -/
theorem walkU_entry (root : String) (rel : List String) (e : Entry) (st : RunState) :
    walkInv st (procEntry root rel e st).1 := by
  match e with
  | .file f =>
    rw [procEntry]
    exact (process_file_facts root rel f st).2.2.2.2
  | .dir dname listOk children =>
    rw [procEntry]
    split
    · exact walkInv_refl st
    · split
      · exact walkInv_refl st
      · exact walkInv_trans (walkInv_mkdirStep st rel dname)
          (walkU_dir root (rel ++ [dname]) listOk children (mkdirStep st rel dname))

/-- Bookkeeping invariant across the loop of the walker. -/
theorem walkU_seq (root : String) (rel : List String) (es : List Entry) (st : RunState) :
    walkInv st (procSeq root rel es st).1 := by
  match es with
  | [] =>
    rw [procSeq]
    exact walkInv_refl st
  | e :: rest =>
    rw [procSeq]
    have h1 := walkU_entry root rel e st
    rcases hpe : procEntry root rel e st with ⟨st1, exc⟩
    rw [hpe] at h1
    cases exc with
    | some msg => exact h1
    | none => exact walkInv_trans h1 (walkU_seq root rel rest st1)

/-- Bookkeeping invariant across one directory of the walker. -/
theorem walkU_dir (root : String) (rel : List String) (listOk : Bool)
    (children : List Entry) (st : RunState) :
    walkInv st (procDirBody root rel listOk children st) := by
  rw [procDirBody]
  split
  · have h1 := walkU_seq root rel children st
    rcases hps : procSeq root rel children st with ⟨st1, exc⟩
    rw [hps] at h1
    cases exc with
    | none => exact h1
    | some msg => exact walkInv_trans h1 (walkInv_addErr st1 _)
  · exact walkInv_addErr st _

end

/-- Members of usedFileNames are names of written files. -/
theorem mem_usedFileNames {st : RunState} {rel : List String} {x : String}
    (h : x ∈ usedFileNames st rel) : ∃ o ∈ st.outFiles, o.fname = x := by
  simp only [usedFileNames, List.mem_map, List.mem_filter] at h
  obtain ⟨o, ⟨ho, _⟩, rfl⟩ := h
  exact ⟨o, ho, rfl⟩

/-- The per-file dispatcher only ever writes names ending in dot txt. -/
theorem process_file_endsTxt (root : String) (rel : List String) (f : SrcFile)
    (st : RunState) (hp : ∀ o ∈ st.outFiles, endsTxt o.fname = true) :
    ∀ o ∈ (process_file root rel f st).outFiles, endsTxt o.fname = true := by
  rcases process_file_cases root rel f st with ⟨h, he⟩ | ⟨h, he⟩ | ⟨h, c, he⟩ | ⟨h, c, he⟩ <;>
      rw [he] <;> intro o ho
  · exact hp o ho
  · exact hp o ho
  · rcases List.mem_append.mp ho with h1 | h1
    · exact hp o h1
    · rw [List.mem_singleton.mp h1]
      exact resolveTargetName_endsTxt _ _
  · rcases List.mem_append.mp ho with h1 | h1
    · exact hp o h1
    · rw [List.mem_singleton.mp h1]
      exact resolveTargetName_endsTxt _ _

/-- Creating a mirrored directory changes neither the written files nor
the file counters nor the errors. -/
theorem mkdirStep_facts (st : RunState) (rel : List String) (dname : String) :
    (mkdirStep st rel dname).outFiles = st.outFiles ∧
    (mkdirStep st rel dname).stats.total_files_processed =
      st.stats.total_files_processed ∧
    (mkdirStep st rel dname).stats.conversion_errors = st.stats.conversion_errors := by
  rw [mkdirStep]
  split <;> simp

mutual

/-- Failure-free traversal of one entry: no exception escapes, the file
total grows by the dispatched count, the errors grow exactly by the stat
failures, and every written name ends in dot txt. -/
theorem walkG_entry (root : String) (rel : List String) (e : Entry) (st : RunState)
    (hg : goodDirsE e = true) (hp : ∀ o ∈ st.outFiles, endsTxt o.fname = true) :
    (procEntry root rel e st).2 = none ∧
    (procEntry root rel e st).1.stats.total_files_processed =
      st.stats.total_files_processed + countFilesE e ∧
    (procEntry root rel e st).1.stats.conversion_errors =
      st.stats.conversion_errors ++ badErrsE root rel e ∧
    (∀ o ∈ (procEntry root rel e st).1.outFiles, endsTxt o.fname = true) := by
  match e with
  | .file f =>
    rw [procEntry]
    obtain ⟨h1, _, _, h4, _⟩ := process_file_facts root rel f st
    exact ⟨rfl, h1, h4, process_file_endsTxt root rel f st hp⟩
  | .dir dname listOk children =>
    rw [procEntry]
    by_cases hex : excludedDir dname = true
    · rw [if_pos hex]
      refine ⟨rfl, ?_, ?_, hp⟩
      · simp [countFilesE, hex]
      · simp [badErrsE, hex]
    · rw [goodDirsE, if_neg hex] at hg
      have hok : listOk = true :=
        (Bool.and_eq_true_iff.mp (Bool.and_eq_true_iff.mp hg).1).1
      have hnt : (! endsTxt dname) = true :=
        (Bool.and_eq_true_iff.mp (Bool.and_eq_true_iff.mp hg).1).2
      have hgc : goodDirsL children = true := (Bool.and_eq_true_iff.mp hg).2
      rw [if_neg hex]
      have hcol : dname ∉ usedFileNames st rel := by
        intro hmem
        obtain ⟨o, ho, he⟩ := mem_usedFileNames hmem
        have hot := hp o ho
        rw [he] at hot
        rw [hot] at hnt
        simp at hnt
      rw [if_neg hcol]
      obtain ⟨m1, m2, m3⟩ := mkdirStep_facts st rel dname
      have hpm : ∀ o ∈ (mkdirStep st rel dname).outFiles, endsTxt o.fname = true := by
        rw [m1]; exact hp
      subst hok
      obtain ⟨g1, g2, g3⟩ :=
        walkG_dir root (rel ++ [dname]) children (mkdirStep st rel dname) hgc hpm
      refine ⟨rfl, ?_, ?_, g3⟩
      · rw [countFilesE, if_neg hex]
        rw [g1, m2]
      · rw [badErrsE, if_neg hex]
        rw [g2, m3]

/-- Failure-free traversal of an entry list. -/
theorem walkG_seq (root : String) (rel : List String) (es : List Entry) (st : RunState)
    (hg : goodDirsL es = true) (hp : ∀ o ∈ st.outFiles, endsTxt o.fname = true) :
    (procSeq root rel es st).2 = none ∧
    (procSeq root rel es st).1.stats.total_files_processed =
      st.stats.total_files_processed + countFilesL es ∧
    (procSeq root rel es st).1.stats.conversion_errors =
      st.stats.conversion_errors ++ badErrsL root rel es ∧
    (∀ o ∈ (procSeq root rel es st).1.outFiles, endsTxt o.fname = true) := by
  match es with
  | [] =>
    rw [procSeq]
    exact ⟨rfl, by simp [countFilesL], by simp [badErrsL], hp⟩
  | e :: rest =>
    rw [procSeq]
    rw [goodDirsL] at hg
    obtain ⟨hge, hgr⟩ := Bool.and_eq_true_iff.mp hg
    obtain ⟨e1, e2, e3, e4⟩ := walkG_entry root rel e st hge hp
    rcases hpe : procEntry root rel e st with ⟨st1, exc⟩
    rw [hpe] at e1 e2 e3 e4
    simp only at e1
    subst e1
    obtain ⟨s1, s2, s3, s4⟩ := walkG_seq root rel rest st1 hgr e4
    refine ⟨s1, ?_, ?_, s4⟩
    · rw [s2, e2, countFilesL]
      omega
    · rw [s3, e3, badErrsL, List.append_assoc]

/-- Failure-free traversal of one listable directory. -/
theorem walkG_dir (root : String) (rel : List String) (children : List Entry)
    (st : RunState) (hg : goodDirsL children = true)
    (hp : ∀ o ∈ st.outFiles, endsTxt o.fname = true) :
    (procDirBody root rel true children st).stats.total_files_processed =
      st.stats.total_files_processed + countFilesL children ∧
    (procDirBody root rel true children st).stats.conversion_errors =
      st.stats.conversion_errors ++ badErrsL root rel children ∧
    (∀ o ∈ (procDirBody root rel true children st).outFiles, endsTxt o.fname = true) := by
  rw [procDirBody]
  rw [if_pos rfl]
  obtain ⟨s1, s2, s3, s4⟩ := walkG_seq root rel children st hg hp
  rcases hps : procSeq root rel children st with ⟨st1, exc⟩
  rw [hps] at s1 s2 s3 s4
  simp only at s1
  subst s1
  exact ⟨s2, s3, s4⟩

end

/-- Writing the summary never changes the statistics. -/
theorem writeSummary_stats (st : RunState) : (writeSummary st).stats = st.stats := by
  rw [writeSummary]
  split <;> rfl

/-- C7: each dispatched file increments total_files_processed exactly once
and the three outcome counters by at most one in total; an excluded
directory leaves the state untouched; the inequality
files_converted plus files_skipped_binary plus files_skipped_encoding at
most total_files_processed is preserved from every intermediate state and
holds after every run. -/
theorem claim_C7_counter_invariant :
    (∀ (root : String) (rel : List String) (f : SrcFile) (st : RunState),
      (process_file root rel f st).stats.total_files_processed =
        st.stats.total_files_processed + 1 ∧
      statSum3 (process_file root rel f st).stats ≤ statSum3 st.stats + 1) ∧
    (∀ (root : String) (rel : List String) (dname : String) (listOk : Bool)
        (children : List Entry) (st : RunState), excludedDir dname = true →
      procEntry root rel (Entry.dir dname listOk children) st = (st, none)) ∧
    (∀ (root : String) (rel : List String) (listOk : Bool) (entries : List Entry)
        (st : RunState),
      statSum3 st.stats ≤ st.stats.total_files_processed →
      statSum3 (procDirBody root rel listOk entries st).stats ≤
        (procDirBody root rel listOk entries st).stats.total_files_processed) ∧
    (∀ (root : String) (listOk : Bool) (entries : List Entry),
      statSum3 (runTraversal root listOk entries).stats ≤
        (runTraversal root listOk entries).stats.total_files_processed) := by
  have h3 : ∀ (root : String) (rel : List String) (listOk : Bool)
      (entries : List Entry) (st : RunState),
      statSum3 st.stats ≤ st.stats.total_files_processed →
      statSum3 (procDirBody root rel listOk entries st).stats ≤
        (procDirBody root rel listOk entries st).stats.total_files_processed := by
    intro root rel listOk entries st hst
    obtain ⟨_, _, hw⟩ := walkU_dir root rel listOk entries st
    omega
  refine ⟨?_, ?_, h3, ?_⟩
  · intro root rel f st
    obtain ⟨h1, _, _, _, _, _, hw⟩ := process_file_facts root rel f st
    exact ⟨h1, by omega⟩
  · intro root rel dname listOk children st hex
    rw [procEntry, if_pos hex]
  · intro root listOk entries
    exact h3 root [] listOk entries initState (by decide)

/-- Witness for C7 at a one-file tree starting from a mid-run state with a
nonzero accumulator. -/
theorem claim_C7_counter_invariant_witness :
    statSum3 initState.stats ≤ initState.stats.total_files_processed ∧
    statSum3 (procDirBody "/src" [] true
        [Entry.file ⟨"a.py", 1, [104], true, true, true, ""⟩] initState).stats ≤
      (procDirBody "/src" [] true
        [Entry.file ⟨"a.py", 1, [104], true, true, true, ""⟩] initState).stats.total_files_processed :=
  ⟨by decide,
    claim_C7_counter_invariant.2.2.1 "/src" [] true
      [Entry.file ⟨"a.py", 1, [104], true, true, true, ""⟩] initState (by decide)⟩

/-- C10: files_skipped_excluded starts at zero and no operation of the
engine ever increments it, so the returned statistics and the statistics
rendered into the summary file always show zero, also on trees with
populated excluded directories. -/
theorem claim_C10_excluded_counter_zero :
    ∀ (prior : Option PriorOutput) (root : String) (listOk : Bool)
      (entries : List Entry),
      initStats.files_skipped_excluded = 0 ∧
      (convert_repository_to_text prior root listOk entries).stats.files_skipped_excluded = 0 ∧
      ("CONVERSION_SUMMARY.txt" ∉
          usedDirNames (procDirBody root [] listOk entries (initialStateFor prior)) [] →
        (⟨[], "CONVERSION_SUMMARY.txt",
            OutContent.summary
              (procDirBody root [] listOk entries (initialStateFor prior)).stats⟩ : OutFile) ∈
            (convert_repository_to_text prior root listOk entries).outFiles ∧
          (procDirBody root [] listOk entries (initialStateFor prior)).stats.files_skipped_excluded = 0) := by
  intro prior root listOk entries
  have hinit : initialStateFor prior = initState := by cases prior <;> rfl
  have hzero :
      (procDirBody root [] listOk entries (initialStateFor prior)).stats.files_skipped_excluded = 0 := by
    obtain ⟨he, _, _⟩ := walkU_dir root [] listOk entries (initialStateFor prior)
    rw [he, hinit]
    rfl
  refine ⟨rfl, ?_, ?_⟩
  · rw [convert_repository_to_text, writeSummary_stats]
    exact hzero
  · intro hns
    constructor
    · rw [convert_repository_to_text, writeSummary, if_neg hns]
      simp
    · exact hzero

/-- Witness for C10 on a tree whose excluded directory contains a file. -/
theorem claim_C10_excluded_counter_zero_witness :
    (convert_repository_to_text none "/src" true
      [Entry.dir ".git" true [Entry.file ⟨"conf", 1, [104], true, true, true, ""⟩]]).stats.files_skipped_excluded = 0 ∧
    ((⟨[], "CONVERSION_SUMMARY.txt",
        OutContent.summary
          (procDirBody "/src" [] true
            [Entry.dir ".git" true [Entry.file ⟨"conf", 1, [104], true, true, true, ""⟩]]
            (initialStateFor none)).stats⟩ : OutFile) ∈
        (convert_repository_to_text none "/src" true
          [Entry.dir ".git" true [Entry.file ⟨"conf", 1, [104], true, true, true, ""⟩]]).outFiles ∧
      (procDirBody "/src" [] true
        [Entry.dir ".git" true [Entry.file ⟨"conf", 1, [104], true, true, true, ""⟩]]
        (initialStateFor none)).stats.files_skipped_excluded = 0) :=
  ⟨(claim_C10_excluded_counter_zero none "/src" true _).2.1,
    (claim_C10_excluded_counter_zero none "/src" true _).2.2 (by
      simp only [initialStateFor, outputRootAfterCleanup, procDirBody, procSeq, procEntry]
      decide)⟩

/-- C1 counterexample: a single non-excluded file of size 10 MiB plus one
byte is counted in total_files_processed, but the size guard returns
without writing anything, so the only file in the finished output tree is
the summary and no output file mirrors the input file. -/
theorem claim_C1_counterexample :
    (convert_repository_to_text none "/src" true
      [Entry.file ⟨"big.txt", 10485761, [104], true, true, true, ""⟩]).stats.total_files_processed = 1 ∧
    (runTraversal "/src" true
      [Entry.file ⟨"big.txt", 10485761, [104], true, true, true, ""⟩]).outFiles = [] ∧
    (∀ o ∈ (convert_repository_to_text none "/src" true
        [Entry.file ⟨"big.txt", 10485761, [104], true, true, true, ""⟩]).outFiles,
      o.fname = "CONVERSION_SUMMARY.txt") := by
  refine ⟨?_, ?_, ?_⟩ <;>
    (simp only [convert_repository_to_text, runTraversal, initialStateFor,
      outputRootAfterCleanup, procDirBody, procSeq, procEntry]; decide)

/-- C1 as amended: on a tree whose non-excluded directories are all
listable and carry no name ending in dot txt, total_files_processed equals
the number of files under non-excluded directories, and the traversal
writes exactly one output file for every file counted under
files_converted or files_skipped_encoding; files stopped by the size or
extension guard and files whose stat fails produce no output file. -/
theorem claim_C1_completeness (root : String) (entries : List Entry)
    (hg : goodDirsL entries = true) :
    (runTraversal root true entries).stats.total_files_processed = countFilesL entries ∧
    (runTraversal root true entries).outFiles.length =
      (runTraversal root true entries).stats.files_converted +
        (runTraversal root true entries).stats.files_skipped_encoding := by
  have z1 : initState.stats.total_files_processed = 0 := rfl
  have z2 : initState.stats.files_converted = 0 := rfl
  have z3 : initState.stats.files_skipped_encoding = 0 := rfl
  have z4 : initState.outFiles.length = 0 := rfl
  constructor
  · obtain ⟨h1, _, _⟩ := walkG_dir root [] entries initState hg (fun o ho => absurd ho (List.not_mem_nil o))
    rw [runTraversal, h1, z1, Nat.zero_add]
  · obtain ⟨_, hb, _⟩ := walkU_dir root [] true entries initState
    rw [runTraversal]
    omega

/-- Witness for C1 as amended on a tree with a convertible file, an
extension-guard file, an oversized file and a subdirectory: three files
are counted, one output is written. -/
theorem claim_C1_completeness_witness :
    (runTraversal "/src" true
      [Entry.file ⟨"a.py", 2, [104, 105], true, true, true, ""⟩,
       Entry.file ⟨"img.png", 3, [1, 2, 3], true, true, true, ""⟩,
       Entry.dir "sub" true [Entry.file ⟨"big.md", 10485761, [104], true, true, true, ""⟩]]).stats.total_files_processed = 3 ∧
    (runTraversal "/src" true
      [Entry.file ⟨"a.py", 2, [104, 105], true, true, true, ""⟩,
       Entry.file ⟨"img.png", 3, [1, 2, 3], true, true, true, ""⟩,
       Entry.dir "sub" true [Entry.file ⟨"big.md", 10485761, [104], true, true, true, ""⟩]]).outFiles.length =
      (runTraversal "/src" true
        [Entry.file ⟨"a.py", 2, [104, 105], true, true, true, ""⟩,
         Entry.file ⟨"img.png", 3, [1, 2, 3], true, true, true, ""⟩,
         Entry.dir "sub" true [Entry.file ⟨"big.md", 10485761, [104], true, true, true, ""⟩]]).stats.files_converted +
        (runTraversal "/src" true
          [Entry.file ⟨"a.py", 2, [104, 105], true, true, true, ""⟩,
           Entry.file ⟨"img.png", 3, [1, 2, 3], true, true, true, ""⟩,
           Entry.dir "sub" true [Entry.file ⟨"big.md", 10485761, [104], true, true, true, ""⟩]]).stats.files_skipped_encoding := by
  have h := claim_C1_completeness "/src"
    [Entry.file ⟨"a.py", 2, [104, 105], true, true, true, ""⟩,
     Entry.file ⟨"img.png", 3, [1, 2, 3], true, true, true, ""⟩,
     Entry.dir "sub" true [Entry.file ⟨"big.md", 10485761, [104], true, true, true, ""⟩]]
    (by decide)
  exact ⟨h.1.trans (by decide), h.2⟩

/-- C2 counterexample: in a tree with one stat-failing file and one
oversized file, the run records exactly one error for the failing file,
but the other non-excluded file is neither converted nor placeholdered:
no output file at all is written. -/
theorem claim_C2_counterexample :
    (runTraversal "/src" true
      [Entry.file ⟨"bad.py", 5, [], false, true, true, "Permission denied"⟩,
       Entry.file ⟨"big.txt", 10485761, [104], true, true, true, ""⟩]).stats.conversion_errors =
      ["File error /src/bad.py: Permission denied"] ∧
    (runTraversal "/src" true
      [Entry.file ⟨"bad.py", 5, [], false, true, true, "Permission denied"⟩,
       Entry.file ⟨"big.txt", 10485761, [104], true, true, true, ""⟩]).outFiles = [] := by
  constructor <;>
    (simp only [runTraversal, procDirBody, procSeq, procEntry]; decide)

/-- C2 as amended: on a tree whose non-excluded directories are all
listable and free of dot txt names, and in which exactly one dispatched
file fails during per-file processing, the run completes with
conversion_errors holding exactly the one File error entry naming that
file, every non-excluded file is still dispatched and counted, and every
file that reaches the conversion step still yields exactly one output
file (guard-skipped files yield none). -/
theorem claim_C2_error_isolation (root : String) (entries : List Entry)
    (hg : goodDirsL entries = true)
    (h1 : (badErrsL root [] entries).length = 1) :
    (runTraversal root true entries).stats.conversion_errors = badErrsL root [] entries ∧
    (runTraversal root true entries).stats.conversion_errors.length = 1 ∧
    (runTraversal root true entries).stats.total_files_processed = countFilesL entries ∧
    (runTraversal root true entries).outFiles.length =
      (runTraversal root true entries).stats.files_converted +
        (runTraversal root true entries).stats.files_skipped_encoding := by
  obtain ⟨ht, he, _⟩ := walkG_dir root [] entries initState hg (fun o ho => absurd ho (List.not_mem_nil o))
  obtain ⟨_, hb, _⟩ := walkU_dir root [] true entries initState
  have z1 : initState.stats.total_files_processed = 0 := rfl
  have z2 : initState.stats.files_converted = 0 := rfl
  have z3 : initState.stats.files_skipped_encoding = 0 := rfl
  have z4 : initState.outFiles.length = 0 := rfl
  have z5 : initState.stats.conversion_errors = [] := rfl
  rw [z5] at he
  simp only [List.nil_append] at he
  refine ⟨?_, ?_, ?_, ?_⟩
  · rw [runTraversal, he]
  · rw [runTraversal, he, h1]
  · rw [runTraversal, ht, z1, Nat.zero_add]
  · rw [runTraversal]
    omega

/-- Witness for C2 as amended: a tree of three files where only the middle
one fails; both others are converted and the single error names the
failing file. -/
theorem claim_C2_error_isolation_witness :
    (runTraversal "/src" true
      [Entry.file ⟨"a.py", 2, [104, 105], true, true, true, ""⟩,
       Entry.file ⟨"bad.py", 5, [], false, true, true, "Permission denied"⟩,
       Entry.file ⟨"c.md", 1, [106], true, true, true, ""⟩]).stats.conversion_errors =
      ["File error /src/bad.py: Permission denied"] ∧
    (runTraversal "/src" true
      [Entry.file ⟨"a.py", 2, [104, 105], true, true, true, ""⟩,
       Entry.file ⟨"bad.py", 5, [], false, true, true, "Permission denied"⟩,
       Entry.file ⟨"c.md", 1, [106], true, true, true, ""⟩]).stats.total_files_processed = 3 := by
  have h := claim_C2_error_isolation "/src"
    [Entry.file ⟨"a.py", 2, [104, 105], true, true, true, ""⟩,
     Entry.file ⟨"bad.py", 5, [], false, true, true, "Permission denied"⟩,
     Entry.file ⟨"c.md", 1, [106], true, true, true, ""⟩]
    (by decide) (by decide)
  exact ⟨h.1.trans (by decide), h.2.2.1.trans (by decide)⟩

/-- Appending one written file extends exactly the file names of its own
directory. -/
theorem usedFileNames_append_outFile (st : RunState) (r : List String) (n : String)
    (c : OutContent) (rel : List String) :
    usedFileNames { st with outFiles := st.outFiles ++ [⟨r, n, c⟩] } rel =
      usedFileNames st rel ++ (if r = rel then [n] else []) := by
  by_cases hr : r = rel <;> simp [usedFileNames, List.filter_append, hr]

/-- Appending one created directory extends exactly the directory names of
its parent. -/
theorem usedDirNames_append_outDir (st : RunState) (r : List String) (dn : String)
    (rel : List String) :
    usedDirNames { st with outDirs := st.outDirs ++ [(r, dn)] } rel =
      usedDirNames st rel ++ (if r = rel then [dn] else []) := by
  by_cases hr : r = rel <;> simp [usedDirNames, List.filter_append, hr]

/-- A fresh name appended at the end of either block keeps the two blocks
of a directory namespace duplicate-free. -/
theorem nodup_insert_name {F D : List String} {n : String}
    (h : (F ++ D).Nodup) (hn : n ∉ F ++ D) :
    ((F ++ [n]) ++ D).Nodup ∧ (F ++ (D ++ [n])).Nodup := by
  have hbase : ((F ++ D) ++ [n]).Nodup := by
    rw [List.nodup_append]
    refine ⟨h, List.nodup_singleton n, ?_⟩
    intro a ha hb
    rw [List.mem_singleton.mp hb] at ha
    exact hn ha
  constructor
  · have hperm : List.Perm ((F ++ [n]) ++ D) ((F ++ D) ++ [n]) := by
      rw [List.append_assoc, List.append_assoc]
      exact List.Perm.append_left F (List.perm_append_comm)
    exact hperm.symm.nodup hbase
  · rw [← List.append_assoc]
    exact hbase

/-- The per-file dispatcher preserves collision freedom: the resolved
target name is always fresh in its directory. -/
theorem process_file_nodup (root : String) (rel : List String) (f : SrcFile)
    (st : RunState) (h : nodupUsed st) : nodupUsed (process_file root rel f st) := by
  rcases process_file_cases root rel f st with ⟨_, he⟩ | ⟨_, he⟩ | ⟨_, c, he⟩ | ⟨_, c, he⟩ <;>
      rw [he] <;> intro rel2
  · exact h rel2
  · exact h rel2
  all_goals {
    have hu := usedFileNames_append_outFile st rel
      (resolveTargetName (pyStem f.name) (usedNames st rel)) c rel2
    have hfresh := (resolveTargetName_spec (pyStem f.name) (usedNames st rel)).1
    show ((usedFileNames { st with outFiles := st.outFiles ++ [_] } rel2) ++
      (usedDirNames st rel2)).Nodup
    rw [hu]
    by_cases hr : rel = rel2
    · rw [if_pos hr]
      subst hr
      exact (nodup_insert_name (h rel) hfresh).1
    · rw [if_neg hr]
      simpa using h rel2
  }

/-- The mirrored mkdir preserves collision freedom when the directory name
is not already a written file name. -/
theorem mkdirStep_nodup (st : RunState) (rel : List String) (dname : String)
    (hfc : dname ∉ usedFileNames st rel) (h : nodupUsed st) :
    nodupUsed (mkdirStep st rel dname) := by
  rw [mkdirStep]
  by_cases hd : dname ∈ usedDirNames st rel
  · rw [if_pos hd]
    exact h
  · rw [if_neg hd]
    intro rel2
    have hu := usedDirNames_append_outDir st rel dname rel2
    show ((usedFileNames st rel2) ++
      (usedDirNames { st with outDirs := st.outDirs ++ [(rel, dname)] } rel2)).Nodup
    rw [hu]
    by_cases hr : rel = rel2
    · rw [if_pos hr]
      subst hr
      have hn : dname ∉ usedFileNames st rel ++ usedDirNames st rel := by
        intro hmem
        rcases List.mem_append.mp hmem with hm | hm
        · exact hfc hm
        · exact hd hm
      exact (nodup_insert_name (h rel) hn).2
    · rw [if_neg hr]
      simpa using h rel2

mutual

/-- Collision freedom is preserved across one loop iteration. -/
theorem walkN_entry (root : String) (rel : List String) (e : Entry) (st : RunState)
    (h : nodupUsed st) : nodupUsed (procEntry root rel e st).1 := by
  match e with
  | .file f =>
    rw [procEntry]
    exact process_file_nodup root rel f st h
  | .dir dname listOk children =>
    rw [procEntry]
    split
    · exact h
    · split
      · exact h
      · rename_i hcol
        exact walkN_dir root (rel ++ [dname]) listOk children (mkdirStep st rel dname)
          (mkdirStep_nodup st rel dname hcol h)

/-- Collision freedom is preserved across the loop. -/
theorem walkN_seq (root : String) (rel : List String) (es : List Entry) (st : RunState)
    (h : nodupUsed st) : nodupUsed (procSeq root rel es st).1 := by
  match es with
  | [] =>
    rw [procSeq]
    exact h
  | e :: rest =>
    rw [procSeq]
    have h1 := walkN_entry root rel e st h
    rcases hpe : procEntry root rel e st with ⟨st1, exc⟩
    rw [hpe] at h1
    cases exc with
    | some msg => exact h1
    | none => exact walkN_seq root rel rest st1 h1

/-- Collision freedom is preserved across one directory. -/
theorem walkN_dir (root : String) (rel : List String) (listOk : Bool)
    (children : List Entry) (st : RunState) (h : nodupUsed st) :
    nodupUsed (procDirBody root rel listOk children st) := by
  rw [procDirBody]
  split
  · have h1 := walkN_seq root rel children st h
    rcases hps : procSeq root rel children st with ⟨st1, exc⟩
    rw [hps] at h1
    cases exc with
    | none => exact h1
    | some msg => exact h1
  · exact h

end

/-- C6: when the default name stem dot txt is taken, the engine tries the
candidates with suffixes underscore 1, underscore 2 and so on sequentially
from 1 with no gaps and picks the first unused one; the chosen name is
always fresh in its directory, so over a whole run the names written into
any one output directory are pairwise distinct and no output ever
overwrites another. -/
theorem claim_C6_collision_resolution :
    (∀ (stem : String) (used : List String),
      resolveTargetName stem used ∉ used ∧
      (stem ++ ".txt" ∉ used → resolveTargetName stem used = stem ++ ".txt") ∧
      (stem ++ ".txt" ∈ used →
        ∃ m, 1 ≤ m ∧ candidateName stem m ∉ used ∧
          (∀ j, 1 ≤ j → j < m → candidateName stem j ∈ used) ∧
          resolveTargetName stem used = candidateName stem m)) ∧
    (∀ (root : String) (listOk : Bool) (entries : List Entry) (rel : List String),
      (usedNames (runTraversal root listOk entries) rel).Nodup) := by
  constructor
  · exact resolveTargetName_spec
  · intro root listOk entries rel
    refine walkN_dir root [] listOk entries initState ?_ rel
    intro rel2
    show (usedNames initState rel2).Nodup
    simp [usedNames, usedFileNames, usedDirNames, initState]

/-- Witness for C6: with a dot txt name already taken the resolver yields
the underscore-1 candidate, and the run on two files a dot txt and a dot
md in one directory writes two distinct names. -/
theorem claim_C6_collision_resolution_witness :
    ("a" ++ ".txt" ∈ ["a.txt"]) ∧
    (∃ m, 1 ≤ m ∧ candidateName "a" m ∉ ["a.txt"] ∧
      (∀ j, 1 ≤ j → j < m → candidateName "a" j ∈ ["a.txt"]) ∧
      resolveTargetName "a" ["a.txt"] = candidateName "a" m) ∧
    (usedNames (runTraversal "/src" true
      [Entry.file ⟨"a.txt", 1, [104], true, true, true, ""⟩,
       Entry.file ⟨"a.md", 1, [105], true, true, true, ""⟩]) []).Nodup :=
  ⟨by decide,
    (claim_C6_collision_resolution.1 "a" ["a.txt"]).2.2 (by decide),
    claim_C6_collision_resolution.2 "/src" true _ []⟩

/-- Membership in the ancestor directories of an entry path: exactly the
proper prefixes of the path with at least one component after them. -/
theorem mem_ancestorDirs : ∀ (p q : List String) (n : String),
    (q, n) ∈ ancestorDirs p ↔ ∃ t, t ≠ [] ∧ p = q ++ n :: t := by
  intro p
  match p with
  | [] =>
    intro q n
    simp only [ancestorDirs, List.not_mem_nil, false_iff]
    rintro ⟨t, ht, he⟩
    exact absurd (congrArg List.length he) (by simp; omega)
  | [x] =>
    intro q n
    simp only [ancestorDirs, List.not_mem_nil, false_iff]
    rintro ⟨t, ht, he⟩
    have := congrArg List.length he
    simp at this
    have : t.length = 0 := by omega
    exact ht (List.length_eq_zero.mp this)
  | d :: r1 :: r2 =>
    intro q n
    have ih := mem_ancestorDirs (r1 :: r2)
    show (q, n) ∈ ([], d) :: (ancestorDirs (r1 :: r2)).map (fun w => (d :: w.1, w.2)) ↔ _
    rw [List.mem_cons]
    constructor
    · rintro (he | hm)
      · obtain ⟨h1, h2⟩ := Prod.mk.injEq _ _ _ _ ▸ he
        subst h1; subst h2
        exact ⟨r1 :: r2, by simp, rfl⟩
      · obtain ⟨⟨q2, n2⟩, hw, he⟩ := List.mem_map.mp hm
        obtain ⟨h1, h2⟩ := Prod.mk.injEq _ _ _ _ ▸ he
        subst h1; subst h2
        obtain ⟨t, ht, hp⟩ := (ih q2 n2).mp hw
        exact ⟨t, ht, by rw [hp]; rfl⟩
    · rintro ⟨t, ht, he⟩
      match q with
      | [] =>
        left
        obtain ⟨h1, h2⟩ := List.cons.injEq _ _ _ _ ▸ he
        simp [h1]
      | a :: q2 =>
        right
        obtain ⟨h1, h2⟩ := List.cons.injEq _ _ _ _ ▸ he
        subst h1
        refine List.mem_map.mpr ⟨(q2, n), (ih q2 n).mpr ⟨t, ht, h2⟩, rfl⟩

/-- C8 counterexample: a source subdirectory whose only file is skipped by
the extension guard yields an empty mirrored output directory; the ZIP
stores only files, so extracting the archive does not recreate that
directory and the extracted tree differs from the output tree. -/
theorem claim_C8_counterexample :
    (([], "sub") ∈ (convert_repository_to_text none "/src" true
        [Entry.dir "sub" true
          [Entry.file ⟨"img.png", 3, [1, 2, 3], true, true, true, ""⟩]]).outDirs) ∧
    (([], "sub") ∉ (extractZip (create_conversion_zip
        (convert_repository_to_text none "/src" true
          [Entry.dir "sub" true
            [Entry.file ⟨"img.png", 3, [1, 2, 3], true, true, true, ""⟩]]).outFiles)).2) := by
  constructor <;>
    (simp only [convert_repository_to_text, initialStateFor, outputRootAfterCleanup,
      procDirBody, procSeq, procEntry]; decide)

/-- C8 as amended: the archive holds exactly the files of the output
directory under their paths relative to that directory, so extraction
reproduces every file with identical relative path and content, and
creates exactly the directories lying on the path of some archived file;
an empty subdirectory of the output tree is not represented in the
archive and is not recreated. -/
theorem claim_C8_zip_roundtrip (files : List OutFile) :
    (extractZip (create_conversion_zip files)).1 = files ∧
    (∀ (q : List String) (n : String),
      (q, n) ∈ (extractZip (create_conversion_zip files)).2 ↔
        ∃ o ∈ files, ∃ t, t ≠ [] ∧ o.path ++ [o.fname] = q ++ n :: t) := by
  have hone : ∀ o : OutFile,
      (⟨(o.path ++ [o.fname]).dropLast, (o.path ++ [o.fname]).getLastD "",
        o.content⟩ : OutFile) = o := by
    intro o
    rw [List.dropLast_concat, List.getLastD_concat]
  constructor
  · simp only [extractZip, create_conversion_zip, List.map_map]
    induction files with
    | nil => rfl
    | cons o rest ih =>
      rw [List.map_cons, ih]
      exact congrArg (fun x => x :: rest) (hone o)
  · intro q n
    simp only [extractZip, create_conversion_zip]
    rw [List.mem_dedup, List.mem_flatMap]
    constructor
    · rintro ⟨z, hz, hm⟩
      obtain ⟨o, ho, rfl⟩ := List.mem_map.mp hz
      obtain ⟨t, ht, hp⟩ := (mem_ancestorDirs _ q n).mp hm
      exact ⟨o, ho, t, ht, hp⟩
    · rintro ⟨o, ho, t, ht, hp⟩
      exact ⟨⟨o.path ++ [o.fname], o.content⟩,
        List.mem_map.mpr ⟨o, ho, rfl⟩, (mem_ancestorDirs _ q n).mpr ⟨t, ht, hp⟩⟩

/-- Witness for C8 as amended at a one-file archive under a subdirectory:
the file round-trips and its parent directory is recreated. -/
theorem claim_C8_zip_roundtrip_witness :
    (extractZip (create_conversion_zip
      [⟨["sub"], "a.txt", OutContent.placeholder "Binary file"⟩])).1 =
      [⟨["sub"], "a.txt", OutContent.placeholder "Binary file"⟩] ∧
    ((([] : List String), "sub") ∈ (extractZip (create_conversion_zip
        [⟨["sub"], "a.txt", OutContent.placeholder "Binary file"⟩])).2 ↔
      ∃ o ∈ [(⟨["sub"], "a.txt", OutContent.placeholder "Binary file"⟩ : OutFile)],
        ∃ t, t ≠ [] ∧ o.path ++ [o.fname] = ([] : List String) ++ "sub" :: t) :=
  ⟨(claim_C8_zip_roundtrip _).1, (claim_C8_zip_roundtrip _).2 [] "sub"⟩
